import Mathlib

/-!
Verification development for the oxford-english-dictionary-parser repository.

The definitions below are a shallow embedding of the Python sources:
  * `oed-word-parser.py` — the scraping pipeline (extraction adapter
    `get_parsed_content`, fetcher `fetch_content`, driver `start_parsing`,
    record store `save_parsed_content`);
  * `src/convert-data.py` — the aggregator/deduplicator (`populate_words`)
    together with its `Word` record type from `src/word.py`.

Strings are modelled by Lean `String` (a structure over `List Char`), HTML
pages by lists of abstract result items (the BeautifulSoup selectors
`find('span', class_='hw')` etc. are opaque to this development, so an item
is just the triple of optional field texts they return), and the network by
explicit oracles passed to the fetcher and the driver.
-/

namespace OED

/-- Model of Python `str.strip()`: remove leading and trailing whitespace
characters (`Char.isWhitespace` covers the ASCII whitespace that occurs in
the scraped text). -/
def pystrip (s : String) : String :=
  String.mk (((s.data.dropWhile Char.isWhitespace).reverse.dropWhile Char.isWhitespace).reverse)

/-- Model of `snippet.replace('"', "'")` in `get_parsed_content`
(`oed-word-parser.py` line 187): every double quote becomes a single quote. -/
def normalizeQuotes (s : String) : String :=
  String.mk (s.data.map (fun c => if c = '"' then '\'' else c))

/-- One `<div class='resultsSetItemBody'>` result item, abstracted to the
three optional field texts that the BeautifulSoup selectors return:
`find('span', class_='hw')`, `find('div', class_='snippet')` and
`find('span', class_='ps')` (`oed-word-parser.py` lines 178-193). `none`
models a missing element (`if word_span:` being falsy). -/
structure Item where
  word : Option String
  snippet : Option String
  ps : Option String
deriving DecidableEq

/-- The `all_words` list built by the extraction loop: for each item with a
word span, the stripped text (`oed-word-parser.py` lines 180-182). -/
def extractWords (items : List Item) : List String :=
  items.filterMap (fun it => it.word.map (fun w => pystrip w))

/-- The `all_snippets` list: for each item with a snippet div, the stripped
text with double quotes normalized to single quotes and then wrapped in
double quotes (`oed-word-parser.py` lines 185-188, the f-string
`f'"{snippet}"'`). -/
def extractSnippets (items : List Item) : List String :=
  items.filterMap (fun it => it.snippet.map (fun s => "\"" ++ normalizeQuotes (pystrip s) ++ "\""))

/-- The `all_parts_of_speech` list: for each item with a ps span, the
stripped text (`oed-word-parser.py` lines 191-193). -/
def extractPartsOfSpeech (items : List Item) : List String :=
  items.filterMap (fun it => it.ps.map (fun p => pystrip p))

/-- `get_parsed_content` (`oed-word-parser.py` lines 144-199).  `none` input
models `content is None`.  The guard mirrors line 196 exactly:
`if len(all_words) != len(all_snippets) and len(all_snippets) != len(all_parts_of_speech)`,
i.e. a conjunction of the two inequalities, not a disjunction. -/
def get_parsed_content (content : Option (List Item)) :
    Option (List String × List String × List String) :=
  match content with
  | none => none
  | some items =>
    let all_words := extractWords items
    let all_snippets := extractSnippets items
    let all_parts_of_speech := extractPartsOfSpeech items
    if all_words.length ≠ all_snippets.length ∧
        all_snippets.length ≠ all_parts_of_speech.length then
      none
    else
      some (all_words, all_snippets, all_parts_of_speech)

/-- The safety condition needed by the write loop of `save_parsed_content`
(`oed-word-parser.py` lines 278-280): for every index `i` below the length
of the words list, indexing `parsed_snippets[i]` and
`parsed_parts_of_speech[i]` stays in bounds. -/
def save_indexing_in_bounds (parsed : List String × List String × List String) : Prop :=
  ∀ i, i < parsed.1.length → i < parsed.2.1.length ∧ i < parsed.2.2.length

/-- One decimal digit, for rendering page numbers the way Python's
`str(int)` does. -/
def digitChar (d : Nat) : Char :=
  if d = 0 then '0' else if d = 1 then '1' else if d = 2 then '2'
  else if d = 3 then '3' else if d = 4 then '4' else if d = 5 then '5'
  else if d = 6 then '6' else if d = 7 then '7' else if d = 8 then '8' else '9'

/-- Fuel-indexed digit accumulator for `natDecimal`; the fuel only makes the
recursion structural, `natDecimal` always supplies enough. -/
def natDecimalAux : Nat → Nat → List Char → List Char
  | 0, n, acc => digitChar (n % 10) :: acc
  | fuel + 1, n, acc =>
    if n < 10 then digitChar (n % 10) :: acc
    else natDecimalAux fuel (n / 10) (digitChar (n % 10) :: acc)

/-- Model of Python `str(current_page)`: the decimal rendering of a natural
number, used by the f-string in `save_parsed_content` (line 280). -/
def natDecimal (n : Nat) : String :=
  String.mk (natDecimalAux n n [])

/-- One output line of `save_parsed_content`, the f-string
`f'{current_page}{delimiter}{word}{delimiter}{snippet}{delimiter}{ps}\n'`
(`oed-word-parser.py` line 280). -/
def formatLine (current_page : Nat) (delimiter word snippet ps : String) : String :=
  natDecimal current_page ++ delimiter ++ word ++ delimiter ++ snippet ++
    delimiter ++ ps ++ "\n"

/-- `save_parsed_content` (`oed-word-parser.py` lines 252-284) as the list of
lines appended to the output file.  The source loops `for i in
range(len(parsed_words))` and indexes the other two lists at `i`; Python
raises `IndexError` past their ends, which the model totalizes with a `""`
default — `save_indexing_in_bounds` states the condition under which the
default is never consulted. -/
def save_parsed_content (parsed_content : List String × List String × List String)
    (current_page : Nat) (delimiter : String) : List String :=
  let parsed_words := parsed_content.1
  let parsed_snippets := parsed_content.2.1
  let parsed_parts_of_speech := parsed_content.2.2
  (List.range parsed_words.length).map (fun i =>
    formatLine current_page delimiter (parsed_words.getD i "")
      (parsed_snippets.getD i "") (parsed_parts_of_speech.getD i ""))

/-- Outcome of one HTTP attempt inside `fetch_content`: a 200 response with
page content, a non-200 status, or a `requests` exception. -/
inductive Response where
  | ok (content : List Item)
  | badStatus (code : Nat)
  | exception
deriving DecidableEq

/-- The recursive call `fetch_content(page, error_delay, max_retries, True)`
of `oed-word-parser.py` line 130, unrolled.  With `retry = True` the guard
`if not retry and num_retries <= max_retries` (line 126) is false, so a
second bad status returns `None` and no further recursion happens — the
source's recursion is therefore at most one level deep and this unrolling is
exact.  `responses i` is the outcome of the `i`-th attempt of the logical
fetch. -/
def fetch_content_retry (responses : Nat → Response) : Option (List Item) :=
  match responses 1 with
  | .ok c => some c
  | .badStatus _ => none
  | .exception => none

/-- `fetch_content(page, error_delay, max_retries)` (`oed-word-parser.py`
lines 74-142) for one logical fetch, with the attempt outcomes given by the
oracle `responses`.  Mirrors the source: `num_retries` is a local variable
initialized to `0` on every call (line 121), so the first-call guard
`not retry and num_retries <= max_retries` reduces to `0 <= max_retries`;
a transport exception returns `None` without retry (lines 140-142). -/
def fetch_content (responses : Nat → Response) (max_retries : Nat) : Option (List Item) :=
  match responses 0 with
  | .ok c => some c
  | .badStatus _ =>
    let num_retries := 0
    if num_retries ≤ max_retries then fetch_content_retry responses
    else none
  | .exception => none

/-- The `for i in range(max_pages)` loop of `start_parsing`
(`oed-word-parser.py` lines 232-250), with `fetch` the per-page fetch oracle.
The loop parses the previously fetched `content`, appends the saved lines on
success (skipping on `None`), advances `current_page` by one, and fetches
the next page; it never breaks early.  The result accumulates the trace:
the page numbers passed to fetch calls and the lines appended to the log. -/
def driverLoop (fetch : Nat → Option (List Item)) (delimiter : String) :
    Nat → Nat → Option (List Item) → List Nat → List String → List Nat × List String
  | 0, _current_page, _content, fetched_pages, lines => (fetched_pages, lines)
  | fuel + 1, current_page, content, fetched_pages, lines =>
    let lines' :=
      match get_parsed_content content with
      | none => lines
      | some parsed_content =>
        lines ++ save_parsed_content parsed_content current_page delimiter
    let next_page := current_page + 1
    driverLoop fetch delimiter fuel next_page (fetch next_page)
      (fetched_pages ++ [next_page]) lines'

/-- `start_parsing` (`oed-word-parser.py` lines 201-250): fetch the starting
page; if that returns `None`, end immediately (lines 227-229); otherwise run
the page loop for `max_pages` iterations.  Returns the trace of fetch-call
page numbers and appended log lines. -/
def start_parsing (fetch : Nat → Option (List Item)) (starting_page max_pages : Nat)
    (delimiter : String) : List Nat × List String :=
  match fetch starting_page with
  | none => ([starting_page], [])
  | some content =>
    driverLoop fetch delimiter max_pages starting_page (some content)
      [starting_page] []

/-- The `Word` record class of `src/word.py`: `text`, `snippet` and
`parts_of_speech`, each defaulting to the empty string. -/
structure Word where
  text : String
  snippet : String
  parts_of_speech : String
deriving DecidableEq

/-- The literal pattern alternative `comb[.] form[.]` of the regex in
`populate_words` (`src/convert-data.py` line 115): the only two-word part of
speech, matched before the alphabetic-run alternative. -/
def combForm : List Char := "comb. form.".data

/-- Fuel-indexed scanner for `findall`; the fuel only makes the recursion
structural, `findall` always supplies enough (each step consumes at least
one character). -/
def findallAux : Nat → List Char → List (List Char)
  | 0, _ => []
  | _fuel + 1, [] => []
  | fuel + 1, c :: cs =>
    if combForm.isPrefixOf (c :: cs) then
      combForm :: findallAux fuel ((c :: cs).drop combForm.length)
    else if c.isAlpha then
      ((c :: cs).takeWhile Char.isAlpha) :: findallAux fuel ((c :: cs).dropWhile Char.isAlpha)
    else
      findallAux fuel cs

/-- Model of `re.findall(r'comb[.] form[.]|[A-Za-z]{1,}', s)`
(`src/convert-data.py` line 115): scan left to right; at each position try
the literal `comb. form.` first, else take a maximal `[A-Za-z]` run
(`Char.isAlpha` is exactly ASCII `A-Z`/`a-z`), else advance one character;
matches are non-overlapping and scanning resumes after each match. -/
def findall (l : List Char) : List (List Char) :=
  findallAux l.length l

/-- The Unicode superscript digits removed from each part of speech by
`re.sub(r'[⁰¹²³⁴⁵⁶⁷⁸⁹]', '', part)` (`src/convert-data.py` line 123). -/
def superscriptDigits : List Char := "⁰¹²³⁴⁵⁶⁷⁸⁹".data

/-- Model of the superscript-stripping `re.sub`: substituting the empty
string for every occurrence of a single-character class is a filter. -/
def removeSuperscripts (l : List Char) : List Char :=
  l.filter (fun c => !(superscriptDigits.contains c))

/-- The `speech_parts` list built by `populate_words` for a new word
(`src/convert-data.py` lines 100-126): empty when `parts_of_speech` is falsy
(the empty string), otherwise the regex matches, each stripped and with
superscript digits removed. -/
def speechParts (parts_of_speech : String) : List String :=
  if parts_of_speech = "" then []
  else (findall parts_of_speech.data).map
    (fun part => String.mk (removeSuperscripts (pystrip (String.mk part)).data))

/-- The parts-of-speech string stored on a newly inserted `Word`:
`"|".join(speech_parts)` (`src/convert-data.py` line 129). -/
def joinedSpeechParts (parts_of_speech : String) : String :=
  String.intercalate "|" (speechParts parts_of_speech)

/-- `text in words` lookup of the aggregator's dictionary, modelled as an
insertion-ordered list of `Word` records keyed by their `text` field. -/
def findWord (words : List Word) (text : String) : Option Word :=
  words.find? (fun w => w.text == text)

/-- The merge branch `words[text].snippet += '|' + snippet`
(`src/convert-data.py` line 109): only the snippet of the entry keyed by
`text` changes; every other entry and every other field is untouched. -/
def updateSnippet (words : List Word) (text snippet : String) : List Word :=
  words.map (fun w =>
    if w.text == text then { w with snippet := w.snippet ++ ("|" ++ snippet) } else w)

/-- One iteration of the row loop of `populate_words` (`src/convert-data.py`
lines 94-132): rows whose field count is not 4 are skipped; a row whose
`text` is already present only has its snippet merged; otherwise a new
`Word` is appended with the cleaned, `|`-joined parts of speech. -/
def processRow (words : List Word) (row : List String) : List Word :=
  match row with
  | [_page_num, text, snippet, parts_of_speech] =>
    if (findWord words text).isSome then
      updateSnippet words text snippet
    else
      words ++ [{ text := text, snippet := snippet,
                  parts_of_speech := joinedSpeechParts parts_of_speech }]
  | _ => words

/-- `populate_words` (`src/convert-data.py` lines 63-132) over the parsed
rows of the input file, producing the aggregator's dictionary (insertion
ordered, like a Python dict). -/
def populate_words (rows : List (List String)) : List Word :=
  rows.foldl processRow []

/-- The three counts printed by `populate_words` (`src/convert-data.py`
lines 134-141): `len(words)`, the number of entries with an empty snippet,
and the number of entries with an empty parts-of-speech string. -/
def aggregatorReport (words : List Word) : Nat × Nat × Nat :=
  let no_snippet := words.filter (fun w => w.snippet == "")
  let no_parts_of_speech := words.filter (fun w => w.parts_of_speech == "")
  (words.length, no_snippet.length, no_parts_of_speech.length)

/-- Parser state of the CSV reader model: Python's `csv.reader` with the
default dialect (delimiter as given, quotechar `"`, doublequote on,
non-strict), restricted to a single physical line. -/
inductive CsvState where
  | fieldStart
  | inField
  | inQuoted
  | quoteInQuoted
deriving DecidableEq

/-- One character step of the CSV reader model.  The state carries the mode,
the characters of the current field, and the completed fields.  A quote
opens quoted mode only at field start; inside a quoted field a doubled quote
is a literal quote; after a closing quote a delimiter ends the field and any
other character is appended (non-strict), continuing unquoted. -/
def csvStep (delim : Char) :
    CsvState × List Char × List (List Char) → Char → CsvState × List Char × List (List Char)
  | (CsvState.fieldStart, cur, done), c =>
    if c = '"' then (CsvState.inQuoted, cur, done)
    else if c = delim then (CsvState.fieldStart, [], done ++ [cur])
    else (CsvState.inField, cur ++ [c], done)
  | (CsvState.inField, cur, done), c =>
    if c = delim then (CsvState.fieldStart, [], done ++ [cur])
    else (CsvState.inField, cur ++ [c], done)
  | (CsvState.inQuoted, cur, done), c =>
    if c = '"' then (CsvState.quoteInQuoted, cur, done)
    else (CsvState.inQuoted, cur ++ [c], done)
  | (CsvState.quoteInQuoted, cur, done), c =>
    if c = '"' then (CsvState.inQuoted, cur ++ ['"'], done)
    else if c = delim then (CsvState.fieldStart, [], done ++ [cur])
    else (CsvState.inField, cur ++ [c], done)

/-- Model of parsing one physical line (without its terminating newline)
with Python's `csv.reader`, as used by `populate_words`
(`src/convert-data.py` line 91) on log files whose quoted fields contain no
newline. -/
def csvParseLine (delim : Char) (line : List Char) : List String :=
  let st := line.foldl (csvStep delim) (CsvState.fieldStart, [], [])
  (st.2.2 ++ [st.2.1]).map String.mk

/-- Split file content at newline characters (the physical lines the CSV
reader iterates when no quoted field spans lines).  A trailing newline
yields a final empty line, whose single empty field is then skipped by the
row-length check. -/
def splitNl : List Char → List (List Char)
  | [] => [[]]
  | c :: cs =>
    if c = '\n' then [] :: splitNl cs
    else
      match splitNl cs with
      | r :: rs => (c :: r) :: rs
      | [] => [[c]]

/-- The append log's file content: the concatenation of the lines written by
`save_parsed_content` (`f.writelines(lines)`, `oed-word-parser.py` line
284). -/
def logContent (lines : List String) : List Char :=
  lines.foldr (fun l acc => l.data ++ acc) []

/-- The rows the aggregator's CSV reader produces from the log file
content. -/
def read_rows (content : List Char) : List (List String) :=
  (splitNl content).map (fun line => csvParseLine ',' line)

/-- Loading an append log with the aggregator: parse the rows and run
`populate_words` over them. -/
def load_log (content : List Char) : List Word :=
  populate_words (read_rows content)

/-- `save_parsed_content` stores each snippet already wrapped in double
quotes (done by `get_parsed_content`'s f-string); `wrapSnippet` is that
outer quoting, applied here to the raw (already quote-normalized) snippet
text. -/
def wrapSnippet (s : String) : String := "\"" ++ s ++ "\""

/-- The records a lossless(-up-to-normalization) round trip must produce:
one `Word` per extracted triple, with the raw snippet text and the
`|`-joined cleaned parts of speech. -/
def roundTripWords : List String → List String → List String → List Word
  | w :: ws, r :: rs, q :: qs =>
    { text := w, snippet := r, parts_of_speech := joinedSpeechParts q } ::
      roundTripWords ws rs qs
  | _, _, _ => []

/-- The row list the CSV reader recovers from one saved page: one
4-field row per word, followed by the single-empty-field row coming from the
trailing newline. -/
def logRows : List String → List String → List String → String → List (List String)
  | w :: ws, r :: rs, q :: qs, pg => [pg, w, r, q] :: logRows ws rs qs pg
  | _, _, _, _ => [[""]]

/-- C1: the claim states that every non-None result of `get_parsed_content`
has three equal-length lists.  The code violates this: an item carrying only
a word (no snippet, no ps) yields lists of lengths 1, 0, 0, and the guard
`len(words) != len(snippets) and len(snippets) != len(partsOfSpeech)` is
false there (the second conjunct fails since 0 = 0), so the unequal triple
is returned instead of `None`.  The comment above the guard ("any mismatch")
and the spec both demand a disjunction; the `and` is a slip. -/
theorem c1_unequal_triple_accepted :
    get_parsed_content (some [⟨some "a", none, none⟩]) = some (["a"], [], []) ∧
      (["a"] : List String).length ≠ ([] : List String).length := by
  constructor
  · rfl
  · decide

/-- C10: the claim states that every triple accepted by `get_parsed_content`
can be written out by `save_parsed_content` without indexing past the end of
the snippet or parts-of-speech lists.  The code violates this: the triple
`(["b"], [], [])` is accepted (see C1), and the write loop's index 0 is out
of bounds for both empty lists — in Python an `IndexError`.  The loop's own
comment asserts the three lists are equal-length, which the accepted triple
contradicts. -/
theorem c10_accepted_triple_breaks_indexing :
    get_parsed_content (some [⟨some "b", none, none⟩]) = some (["b"], [], []) ∧
      ¬ save_indexing_in_bounds (["b"], [], []) := by
  constructor
  · rfl
  · intro h
    exact absurd ((h 0 (by decide)).1) (by decide)

/-- The fetch-call trace of the driver loop is determined by the cursor and
the iteration count alone: each of the `fuel` iterations fetches exactly the
next page, whatever the fetch results are (the loop never breaks). -/
theorem driverLoop_fst (fetch : Nat → Option (List Item)) (delimiter : String)
    (fuel : Nat) :
    ∀ (current_page : Nat) (content : Option (List Item))
      (fetched_pages : List Nat) (lines : List String),
      (driverLoop fetch delimiter fuel current_page content fetched_pages lines).1 =
        fetched_pages ++ (List.range fuel).map (fun i => current_page + 1 + i) := by
  induction fuel with
  | zero => intro cur content pages lines; simp [driverLoop]
  | succ n ih =>
    intro cur content pages lines
    rw [driverLoop, ih]
    have hm : (List.range n).map ((fun i => cur + 1 + i) ∘ Nat.succ) =
        (List.range n).map (fun i => cur + 1 + 1 + i) := by
      apply List.map_congr_left
      intro i _
      show cur + 1 + (i + 1) = cur + 1 + 1 + i
      omega
    rw [List.range_succ_eq_map, List.map_cons, List.map_map, hm]
    simp [List.append_assoc]

/-- The fetch-call trace of `start_parsing` when the first fetch succeeds:
the starting page followed by one further page per loop iteration. -/
theorem start_parsing_fst_of_first_some (fetch : Nat → Option (List Item))
    (starting_page max_pages : Nat) (delimiter : String)
    (h : (fetch starting_page).isSome) :
    (start_parsing fetch starting_page max_pages delimiter).1 =
      starting_page :: (List.range max_pages).map (fun i => starting_page + 1 + i) := by
  rw [start_parsing]
  match hf : fetch starting_page with
  | none => rw [hf] at h; simp at h
  | some c => rw [driverLoop_fst]; simp

/-- C2 counterexample: with `maxPages = 5`, `startingPage = 1` and a fetcher
that always returns content, the driver's fetch-call trace is
`[1, 2, 3, 4, 5, 6]` — six calls, not the five the claim states: the loop
body ends by prefetching the next page, so the initial fetch plus five
in-loop fetches touch pages 1 through 6 and the last fetched content is
never parsed. -/
theorem c2_six_fetches_counterexample :
    (start_parsing (fun _ => some []) 1 5 ",").1 = [1, 2, 3, 4, 5, 6] ∧
      ((start_parsing (fun _ => some []) 1 5 ",").1).length ≠ 5 := by
  constructor
  · rfl
  · decide

/-- C2 (amended): with `maxPages = 5` and a fetcher that always returns
content, the driver performs exactly 6 fetch calls, with page numbers
`startingPage` through `startingPage + 5`; only the first five fetched pages
are ever parsed. -/
theorem c2_fetch_trace (fetch : Nat → Option (List Item)) (starting_page : Nat)
    (delimiter : String) (h : ∀ p, (fetch p).isSome) :
    (start_parsing fetch starting_page 5 delimiter).1 =
      [starting_page, starting_page + 1, starting_page + 2, starting_page + 3,
        starting_page + 4, starting_page + 5] := by
  rw [start_parsing_fst_of_first_some fetch starting_page 5 delimiter (h starting_page)]
  have hr : List.range 5 = [0, 1, 2, 3, 4] := by decide
  rw [hr]
  simp only [List.map_cons, List.map_nil]

/-- Witness for C2 (amended) at the always-succeeding fetcher and starting
page 1. -/
theorem c2_fetch_trace_witness :
    (∀ p : Nat, ((fun (_ : Nat) => some ([] : List Item)) p).isSome) ∧
      (start_parsing (fun _ => some []) 1 5 ";").1 = [1, 2, 3, 4, 5, 6] := by
  refine ⟨fun p => rfl, ?_⟩
  exact c2_fetch_trace (fun _ => some []) 1 ";" (fun p => rfl)

/-- C3: the claim states that with `maxRetries = 2`, two failing attempts
followed by a succeeding third attempt yield the content.  The code violates
this: `num_retries` is re-initialized to `0` inside every call and the
`retry` flag blocks any second retry, so the fetch gives up after the second
failed attempt and returns `None` even though attempt 2 (0-based) would have
succeeded.  The CLI help "The maximum number of retries after an error" and
the spec's recommended contract are contradicted; the spec's Design Notes
flag this reset as a bug. -/
theorem c3_retry_counter_reset :
    fetch_content (fun i => if 2 ≤ i then Response.ok [] else Response.badStatus 500) 2 =
        none ∧
      (fun i => if 2 ≤ i then Response.ok [] else Response.badStatus 500) 2 =
        Response.ok [] := by
  exact ⟨rfl, rfl⟩

/-- C4 counterexample: with the fetch oracle returning `None` exactly for
page 2, starting page 1 and `maxPages = 3`, the driver still fetches pages 3
and 4 after the null result — the fetch-call trace is `[1, 2, 3, 4]`,
contradicting the claim that no further fetch calls happen after a null
fetch beyond the first page. -/
theorem c4_null_fetch_does_not_stop :
    (start_parsing (fun p => if p = 2 then none else some []) 1 3 ",").1 =
        [1, 2, 3, 4] ∧
      (fun p => if p = 2 then (none : Option (List Item)) else some []) 2 = none := by
  exact ⟨rfl, rfl⟩

/-- C4 (amended): whenever a fetch for a page after the first returns null,
the driver skips appending for that page but keeps crawling: the fetch-call
trace is always the starting page followed by `maxPages` further pages,
whatever null results occur after the first page — the crawl ends only when
the iteration bound is reached. -/
theorem c4_crawl_continues (fetch : Nat → Option (List Item))
    (starting_page max_pages : Nat) (delimiter : String) (k : Nat)
    (h : (fetch starting_page).isSome) (_hk : fetch k = none) :
    (start_parsing fetch starting_page max_pages delimiter).1 =
      starting_page :: (List.range max_pages).map (fun i => starting_page + 1 + i) := by
  exact start_parsing_fst_of_first_some fetch starting_page max_pages delimiter h

/-- Witness for C4 (amended): a concrete oracle that is null at page 2 only,
starting page 1, three loop iterations. -/
theorem c4_crawl_continues_witness :
    ((fun p => if p = 2 then (none : Option (List Item)) else some []) 1).isSome ∧
      (fun p => if p = 2 then (none : Option (List Item)) else some []) 2 = none ∧
      (start_parsing (fun p => if p = 2 then none else some []) 1 3 ",").1 =
        1 :: (List.range 3).map (fun i => 1 + 1 + i) := by
  refine ⟨rfl, rfl, ?_⟩
  exact c4_crawl_continues (fun p => if p = 2 then none else some []) 1 3 "," 2 rfl rfl

/-- C5: if the fetch of the starting page returns null, `start_parsing`
performs exactly one fetch call (for the starting page) and appends zero
lines to the log before terminating. -/
theorem c5_first_fetch_null_aborts (fetch : Nat → Option (List Item))
    (starting_page max_pages : Nat) (delimiter : String)
    (h : fetch starting_page = none) :
    start_parsing fetch starting_page max_pages delimiter = ([starting_page], []) := by
  rw [start_parsing, h]

/-- Witness for C5 at the always-null fetcher. -/
theorem c5_first_fetch_null_aborts_witness :
    (fun _ => (none : Option (List Item))) 1 = none ∧
      start_parsing (fun _ => none) 1 7 "," = ([1], []) := by
  exact ⟨rfl, c5_first_fetch_null_aborts (fun _ => none) 1 7 "," rfl⟩

/-- Merging a snippet never changes the key sequence of the aggregator's
dictionary: `updateSnippet` touches only the `snippet` field. -/
theorem updateSnippet_map_text (l : List Word) (t s : String) :
    (updateSnippet l t s).map Word.text = l.map Word.text := by
  rw [updateSnippet, List.map_map]
  apply List.map_congr_left
  intro w _
  show Word.text (if (w.text == t) = true then _ else w) = Word.text w
  split <;> rfl

/-- `updateSnippet` is the identity on a list none of whose entries carry
the merged key. -/
theorem updateSnippet_of_forall_ne (l : List Word) (t s : String)
    (h : ∀ w ∈ l, w.text ≠ t) : updateSnippet l t s = l := by
  induction l with
  | nil => rfl
  | cons w l ih =>
    rw [updateSnippet, List.map_cons]
    rw [updateSnippet] at ih
    rw [ih (fun w' hw' => h w' (List.mem_cons_of_mem w hw'))]
    have hw : (w.text == t) = false := by
      exact beq_eq_false_iff_ne.mpr (h w (List.mem_cons_self w l))
    rw [hw]
    simp

/-- Processing any row preserves distinctness of the dictionary's keys. -/
theorem processRow_texts_nodup (acc : List Word) (row : List String)
    (h : (acc.map Word.text).Nodup) : ((processRow acc row).map Word.text).Nodup := by
  rcases row with _ | ⟨a, _ | ⟨b, _ | ⟨c, _ | ⟨d, _ | ⟨e, tl⟩⟩⟩⟩⟩
  · exact h
  · exact h
  · exact h
  · exact h
  · rw [processRow]
    by_cases hf : (findWord acc b).isSome
    · rw [if_pos hf, updateSnippet_map_text]
      exact h
    · rw [if_neg hf, List.map_append, List.map_cons, List.map_nil]
      have hb : b ∉ acc.map Word.text := by
        intro hmem
        rcases List.mem_map.mp hmem with ⟨w, hw, hwt⟩
        rw [Option.not_isSome_iff_eq_none, findWord, List.find?_eq_none] at hf
        exact hf w hw (by rw [hwt]; exact beq_self_eq_true b)
      refine List.Nodup.append h (List.nodup_singleton b) ?_
      intro x hx hx'
      rw [List.mem_singleton] at hx'
      subst hx'
      exact hb hx
  · exact h

/-- The keys of the aggregator's output dictionary are pairwise distinct. -/
theorem populate_words_texts_nodup (rows : List (List String)) :
    ((populate_words rows).map Word.text).Nodup := by
  rw [populate_words]
  have : ∀ (rs : List (List String)) (acc : List Word),
      (acc.map Word.text).Nodup → ((rs.foldl processRow acc).map Word.text).Nodup := by
    intro rs
    induction rs with
    | nil => intro acc h; exact h
    | cons r rs ih =>
      intro acc h
      rw [List.foldl_cons]
      exact ih (processRow acc r) (processRow_texts_nodup acc r h)
  exact this rows [] (by simp)

/-- C6: an input log of two well-formed rows with the same `text` yields a
single record whose snippet is the first snippet, a `|`, then the second
snippet, and whose parts of speech come from the first row alone. -/
theorem c6_duplicate_text_merges_snippets (p1 p2 t s1 s2 q1 q2 : String) :
    populate_words [[p1, t, s1, q1], [p2, t, s2, q2]] =
      [{ text := t, snippet := s1 ++ "|" ++ s2,
         parts_of_speech := joinedSpeechParts q1 }] := by
  have h1 : populate_words [[p1, t, s1, q1], [p2, t, s2, q2]] =
      processRow [{ text := t, snippet := s1, parts_of_speech := joinedSpeechParts q1 }]
        [p2, t, s2, q2] := rfl
  rw [h1, processRow, findWord]
  have hfind : (List.find? (fun (w : Word) => w.text == t)
      [{ text := t, snippet := s1, parts_of_speech := joinedSpeechParts q1 }]).isSome := by
    simp [List.find?]
  rw [if_pos hfind, updateSnippet]
  simp [String.append_assoc]

/-- C7: processing a well-formed row whose `text` is already a key of the
dictionary changes only that record's snippet: its `text` and
`parts_of_speech` fields are untouched (first occurrence wins) and every
other entry of the dictionary is unchanged. -/
theorem c7_merge_modifies_only_snippet (pre post : List Word) (w0 : Word)
    (p s q : String) (h : ((pre ++ w0 :: post).map Word.text).Nodup) :
    processRow (pre ++ w0 :: post) [p, w0.text, s, q] =
      pre ++ { w0 with snippet := w0.snippet ++ ("|" ++ s) } :: post := by
  rw [List.map_append, List.map_cons] at h
  have hpre : ∀ w ∈ pre, w.text ≠ w0.text := by
    intro w hw he
    have hd := List.disjoint_of_nodup_append h
    exact hd (List.mem_map_of_mem Word.text hw)
      (by rw [he]; exact List.mem_cons_self _ _)
  have hpost : ∀ w ∈ post, w.text ≠ w0.text := by
    intro w hw he
    have h2 := (List.nodup_cons.mp (List.Nodup.of_append_right h)).1
    exact h2 (by rw [← he]; exact List.mem_map_of_mem Word.text hw)
  have hfind : (findWord (pre ++ w0 :: post) w0.text).isSome := by
    rw [findWord, List.find?_isSome]
    exact ⟨w0, by simp, beq_self_eq_true w0.text⟩
  rw [processRow, if_pos hfind, updateSnippet, List.map_append, List.map_cons]
  have hpre' : pre.map (fun w =>
      if (w.text == w0.text) = true then { w with snippet := w.snippet ++ ("|" ++ s) }
      else w) = pre := by
    have := updateSnippet_of_forall_ne pre w0.text s hpre
    rw [updateSnippet] at this
    exact this
  have hpost' : post.map (fun w =>
      if (w.text == w0.text) = true then { w with snippet := w.snippet ++ ("|" ++ s) }
      else w) = post := by
    have := updateSnippet_of_forall_ne post w0.text s hpost
    rw [updateSnippet] at this
    exact this
  rw [hpre', hpost']
  rw [show (w0.text == w0.text) = true from beq_self_eq_true w0.text]
  simp

/-- Witness for C7 at a concrete two-entry dictionary: merging into the
second entry leaves the first entry and the second entry's other fields
unchanged. -/
theorem c7_merge_modifies_only_snippet_witness :
    ((([⟨"a", "s1", "n"⟩] : List Word) ++ (⟨"b", "s2", "v"⟩ : Word) :: []).map
        Word.text).Nodup ∧
      processRow ([⟨"a", "s1", "n"⟩] ++ (⟨"b", "s2", "v"⟩ : Word) :: [])
          ["3", "b", "s3", "adj"] =
        [⟨"a", "s1", "n"⟩] ++ (⟨"b", "s2|s3", "v"⟩ : Word) :: [] := by
  refine ⟨by decide, ?_⟩
  exact c7_merge_modifies_only_snippet [⟨"a", "s1", "n"⟩] [] ⟨"b", "s2", "v"⟩
    "3" "s3" "adj" (by decide)

/-- C8: after a full load the three reported counts are exactly the number
of (pairwise-distinct) keys of the output dictionary, the number of records
with an empty snippet, and the number of records with an empty
parts-of-speech string — each recomputed here independently from the
dictionary alone. -/
theorem c8_report_counts (rows : List (List String)) :
    ((populate_words rows).map Word.text).Nodup ∧
      aggregatorReport (populate_words rows) =
        (((populate_words rows).map Word.text).dedup.length,
          (populate_words rows).countP (fun w => w.snippet == ""),
          (populate_words rows).countP (fun w => w.parts_of_speech == "")) := by
  refine ⟨populate_words_texts_nodup rows, ?_⟩
  rw [aggregatorReport]
  have hd : ((populate_words rows).map Word.text).dedup =
      (populate_words rows).map Word.text :=
    List.Nodup.dedup (populate_words_texts_nodup rows)
  rw [hd, List.length_map]
  rw [List.countP_eq_length_filter, List.countP_eq_length_filter]

/-- Decimal digit characters are never a comma, a quote or a newline. -/
theorem digitChar_safe (d : Nat) :
    digitChar d ≠ ',' ∧ digitChar d ≠ '"' ∧ digitChar d ≠ '\n' := by
  unfold digitChar
  repeat' split
  all_goals exact ⟨by decide, by decide, by decide⟩

/-- Every character of a rendered page number is a decimal digit, hence
never a comma, a quote or a newline. -/
theorem natDecimalAux_safe :
    ∀ (fuel n : Nat) (acc : List Char),
      (∀ c ∈ acc, c ≠ ',' ∧ c ≠ '"' ∧ c ≠ '\n') →
      ∀ c ∈ natDecimalAux fuel n acc, c ≠ ',' ∧ c ≠ '"' ∧ c ≠ '\n' := by
  intro fuel
  induction fuel with
  | zero =>
    intro n acc hacc c hc
    rw [natDecimalAux] at hc
    rcases List.mem_cons.mp hc with h | h
    · rw [h]; exact digitChar_safe (n % 10)
    · exact hacc c h
  | succ m ih =>
    intro n acc hacc c hc
    rw [natDecimalAux] at hc
    split at hc
    · rcases List.mem_cons.mp hc with h | h
      · rw [h]; exact digitChar_safe (n % 10)
      · exact hacc c h
    · refine ih (n / 10) _ ?_ c hc
      intro c' hc'
      rcases List.mem_cons.mp hc' with h | h
      · rw [h]; exact digitChar_safe (n % 10)
      · exact hacc c' h

/-- Characters of `natDecimal` are safe for the delimited format. -/
theorem natDecimal_safe (n : Nat) :
    ∀ c ∈ (natDecimal n).data, c ≠ ',' ∧ c ≠ '"' ∧ c ≠ '\n' := by
  intro c hc
  exact natDecimalAux_safe n n [] (by intro c' hc'; cases hc') c hc

/-- Splitting at newlines peels off a newline-free first line. -/
theorem splitNl_append (body rest : List Char) (h : ∀ c ∈ body, c ≠ '\n') :
    splitNl (body ++ '\n' :: rest) = body :: splitNl rest := by
  induction body with
  | nil =>
    rw [List.nil_append, splitNl, if_pos rfl]
  | cons c body ih =>
    rw [List.cons_append, splitNl,
      if_neg (h c (List.mem_cons_self c body)),
      ih (fun c' hc' => h c' (List.mem_cons_of_mem c hc'))]

/-- Inside an unquoted field, comma-free quote-free characters just
accumulate. -/
theorem csvFold_inField (cs : List Char) :
    ∀ (cur : List Char) (done : List (List Char)),
      (∀ c ∈ cs, c ≠ ',' ∧ c ≠ '"') →
      cs.foldl (csvStep ',') (CsvState.inField, cur, done) =
        (CsvState.inField, cur ++ cs, done) := by
  induction cs with
  | nil => intro cur done _; simp
  | cons c cs ih =>
    intro cur done h
    rw [List.foldl_cons, csvStep,
      if_neg (h c (List.mem_cons_self c cs)).1,
      ih (cur ++ [c]) done (fun c' hc' => h c' (List.mem_cons_of_mem c hc'))]
    simp

/-- Inside a quoted field, quote-free characters just accumulate. -/
theorem csvFold_inQuoted (cs : List Char) :
    ∀ (cur : List Char) (done : List (List Char)),
      (∀ c ∈ cs, c ≠ '"') →
      cs.foldl (csvStep ',') (CsvState.inQuoted, cur, done) =
        (CsvState.inQuoted, cur ++ cs, done) := by
  induction cs with
  | nil => intro cur done _; simp
  | cons c cs ih =>
    intro cur done h
    rw [List.foldl_cons, csvStep, if_neg (h c (List.mem_cons_self c cs)),
      ih (cur ++ [c]) done (fun c' hc' => h c' (List.mem_cons_of_mem c hc'))]
    simp

/-- Reading an unquoted field up to its terminating delimiter completes that
field. -/
theorem csvFold_unquoted_field (w rest : List Char) (done : List (List Char))
    (h : ∀ c ∈ w, c ≠ ',' ∧ c ≠ '"') :
    (w ++ ',' :: rest).foldl (csvStep ',') (CsvState.fieldStart, [], done) =
      rest.foldl (csvStep ',') (CsvState.fieldStart, [], done ++ [w]) := by
  cases w with
  | nil =>
    rw [List.nil_append, List.foldl_cons, csvStep,
      if_neg (by decide : ¬ (',' = '"')), if_pos rfl]
  | cons c w' =>
    have hc := h c (List.mem_cons_self c w')
    have hw' : ∀ c' ∈ w', c' ≠ ',' ∧ c' ≠ '"' :=
      fun c' hc' => h c' (List.mem_cons_of_mem c hc')
    rw [List.cons_append, List.foldl_cons, csvStep, if_neg hc.2, if_neg hc.1,
      List.foldl_append, csvFold_inField w' ([] ++ [c]) done hw']
    rw [List.foldl_cons, csvStep, if_pos rfl]
    simp

/-- Reading a quoted field (quote-free content) up to its closing quote and
delimiter completes that field with the outer quotes removed. -/
theorem csvFold_quoted_field (r rest : List Char) (done : List (List Char))
    (h : ∀ c ∈ r, c ≠ '"') :
    ('"' :: (r ++ '"' :: ',' :: rest)).foldl (csvStep ',')
        (CsvState.fieldStart, [], done) =
      rest.foldl (csvStep ',') (CsvState.fieldStart, [], done ++ [r]) := by
  rw [List.foldl_cons, csvStep, if_pos rfl, List.foldl_append,
    csvFold_inQuoted r [] done h]
  rw [List.foldl_cons, csvStep, if_pos rfl, List.foldl_cons, csvStep,
    if_neg (by decide : ¬ (',' = '"')), if_pos rfl]
  simp

/-- The final (delimiter-free, quote-free) field of a line stays in the
current-field accumulator. -/
theorem csvFold_last (q : List Char) (done : List (List Char))
    (h : ∀ c ∈ q, c ≠ ',' ∧ c ≠ '"') :
    (q.foldl (csvStep ',') (CsvState.fieldStart, [], done)).2 = (q, done) := by
  cases q with
  | nil => rfl
  | cons c q' =>
    have hc := h c (List.mem_cons_self c q')
    rw [List.foldl_cons, csvStep, if_neg hc.2, if_neg hc.1,
      csvFold_inField q' ([] ++ [c]) done
        (fun c' hc' => h c' (List.mem_cons_of_mem c hc'))]
    simp

/-- Parsing one well-formed log line: an unquoted page field, an unquoted
word, a quoted snippet and an unquoted final parts-of-speech field are
recovered exactly (the snippet without its outer quotes). -/
theorem csvParseLine_wellformed (a w r q : List Char)
    (ha : ∀ c ∈ a, c ≠ ',' ∧ c ≠ '"') (hw : ∀ c ∈ w, c ≠ ',' ∧ c ≠ '"')
    (hr : ∀ c ∈ r, c ≠ '"') (hq : ∀ c ∈ q, c ≠ ',' ∧ c ≠ '"') :
    csvParseLine ',' (a ++ ',' :: (w ++ ',' :: ('"' :: (r ++ '"' :: ',' :: q)))) =
      [String.mk a, String.mk w, String.mk r, String.mk q] := by
  rw [csvParseLine]
  rw [csvFold_unquoted_field a _ [] ha, csvFold_unquoted_field w _ ([] ++ [a]) hw,
    csvFold_quoted_field r q (([] ++ [a]) ++ [w]) hr,
    csvFold_last q ((([] ++ [a]) ++ [w]) ++ [r]) hq]
  simp

/-- The record store's line list peels off one line per word. -/
theorem save_cons (w s q : String) (ws ss qs : List String) (page : Nat) (d : String) :
    save_parsed_content (w :: ws, s :: ss, q :: qs) page d =
      formatLine page d w s q :: save_parsed_content (ws, ss, qs) page d := by
  rw [save_parsed_content, save_parsed_content]
  show (List.range (ws.length + 1)).map _ = _
  rw [List.range_succ_eq_map, List.map_cons, List.map_map]
  congr 1

/-- File content of a nonempty line list. -/
theorem logContent_cons (l : String) (ls : List String) :
    logContent (l :: ls) = l.data ++ logContent ls := rfl

/-- Reading back the log written for one valid page recovers, per word, the
4-field row `(pageNumber, text, snippet-without-outer-quotes,
partsOfSpeech)`, followed by the empty row of the trailing newline. -/
theorem read_rows_save (ws : List String) :
    ∀ (rs qs : List String) (page : Nat),
      ws.length = rs.length → ws.length = qs.length →
      (∀ w ∈ ws, ∀ c ∈ w.data, c ≠ ',' ∧ c ≠ '"' ∧ c ≠ '\n') →
      (∀ r ∈ rs, ∀ c ∈ r.data, c ≠ '"' ∧ c ≠ '\n') →
      (∀ q ∈ qs, ∀ c ∈ q.data, c ≠ ',' ∧ c ≠ '"' ∧ c ≠ '\n') →
      read_rows (logContent (save_parsed_content (ws, rs.map wrapSnippet, qs) page ",")) =
        logRows ws rs qs (natDecimal page) := by
  induction ws with
  | nil =>
    intro rs qs page hlen1 hlen2 _ _ _
    have hrs : rs = [] := List.length_eq_zero.mp (by simpa using hlen1.symm)
    have hqs : qs = [] := List.length_eq_zero.mp (by simpa using hlen2.symm)
    subst hrs; subst hqs
    rfl
  | cons w ws ih =>
    intro rs qs page hlen1 hlen2 hw hr hq
    rcases rs with _ | ⟨r, rs'⟩
    · exact absurd hlen1 (by simp)
    rcases qs with _ | ⟨q, qs'⟩
    · exact absurd hlen2 (by simp)
    rw [List.map_cons, save_cons, logContent_cons]
    have hcontent : (formatLine page "," w (wrapSnippet r) q).data ++
        logContent (save_parsed_content (ws, rs'.map wrapSnippet, qs') page ",") =
        ((natDecimal page).data ++
            ',' :: (w.data ++ ',' :: ('"' :: (r.data ++ '"' :: ',' :: q.data)))) ++
          '\n' :: logContent (save_parsed_content (ws, rs'.map wrapSnippet, qs') page ",") := by
      simp [formatLine, wrapSnippet, String.data_append, List.append_assoc]
    have hbody_nl : ∀ c ∈ ((natDecimal page).data ++
        ',' :: (w.data ++ ',' :: ('"' :: (r.data ++ '"' :: ',' :: q.data)))), c ≠ '\n' := by
      intro c hc
      simp only [List.mem_append, List.mem_cons] at hc
      rcases hc with h | h | h | h | h | h | h | h | h
      · exact (natDecimal_safe page c h).2.2
      · subst h; decide
      · exact (hw w (List.mem_cons_self w ws) c h).2.2
      · subst h; decide
      · subst h; decide
      · exact (hr r (List.mem_cons_self r rs') c h).2
      · subst h; decide
      · subst h; decide
      · exact (hq q (List.mem_cons_self q qs') c h).2.2
    rw [read_rows, hcontent, splitNl_append _ _ hbody_nl, List.map_cons]
    rw [csvParseLine_wellformed (natDecimal page).data w.data r.data q.data
      (fun c hc => ⟨(natDecimal_safe page c hc).1, (natDecimal_safe page c hc).2.1⟩)
      (fun c hc => ⟨(hw w (List.mem_cons_self w ws) c hc).1,
        (hw w (List.mem_cons_self w ws) c hc).2.1⟩)
      (fun c hc => (hr r (List.mem_cons_self r rs') c hc).1)
      (fun c hc => ⟨(hq q (List.mem_cons_self q qs') c hc).1,
        (hq q (List.mem_cons_self q qs') c hc).2.1⟩)]
    have htail := ih rs' qs' page (by simpa using hlen1) (by simpa using hlen2)
      (fun w' hw' => hw w' (List.mem_cons_of_mem w hw'))
      (fun r' hr' => hr r' (List.mem_cons_of_mem r hr'))
      (fun q' hq' => hq q' (List.mem_cons_of_mem q hq'))
    rw [read_rows] at htail
    rw [htail, logRows]

/-- Loading pairwise-fresh recovered rows inserts one new record per row, in
order, after any existing records. -/
theorem populate_logRows (ws : List String) :
    ∀ (rs qs : List String) (pg : String) (acc : List Word),
      ws.length = rs.length → ws.length = qs.length → ws.Nodup →
      (∀ w0 ∈ acc, ∀ w ∈ ws, w0.text ≠ w) →
      (logRows ws rs qs pg).foldl processRow acc = acc ++ roundTripWords ws rs qs := by
  induction ws with
  | nil =>
    intro rs qs pg acc _ _ _ _
    have h1 : logRows [] rs qs pg = [[""]] := rfl
    have h2 : roundTripWords [] rs qs = [] := rfl
    rw [h1, h2, List.foldl_cons, List.foldl_nil]
    have h3 : processRow acc [""] = acc := rfl
    rw [h3, List.append_nil]
  | cons w ws ih =>
    intro rs qs pg acc hlen1 hlen2 hnodup hfresh
    rcases rs with _ | ⟨r, rs'⟩
    · exact absurd hlen1 (by simp)
    rcases qs with _ | ⟨q, qs'⟩
    · exact absurd hlen2 (by simp)
    rw [logRows, List.foldl_cons]
    have hnone : findWord acc w = none := by
      rw [findWord]
      refine List.find?_eq_none.mpr ?_
      intro x hx hbeq
      exact hfresh x hx w (List.mem_cons_self w ws) (eq_of_beq hbeq)
    have hstep : processRow acc [pg, w, r, q] =
        acc ++ [{ text := w, snippet := r, parts_of_speech := joinedSpeechParts q }] := by
      rw [processRow, findWord] at *
      rw [if_neg (by rw [hnone]; simp)]
    rw [hstep]
    rw [ih rs' qs' pg _ (by simpa using hlen1) (by simpa using hlen2)
      (List.Nodup.of_cons hnodup) ?_]
    · rw [roundTripWords, List.append_assoc, List.singleton_append]
    · intro w0 h0 w' hw'
      rcases List.mem_append.mp h0 with h | h
      · exact hfresh w0 h w' (List.mem_cons_of_mem w hw')
      · rw [List.mem_singleton] at h
        subst h
        show w ≠ w'
        intro he
        rw [he] at hnodup
        exact (List.nodup_cons.mp hnodup).1 hw'

/-- C9 counterexample: the claim promises that the parts-of-speech value is
recovered exactly whenever the delimiter does not occur in it.  Take the
valid triple with one word `a`, stored snippet `"s"` and parts of speech
`n.` (comma-free): loading the written log yields the record
`⟨a, s, n⟩` — the aggregator re-tokenizes the parts-of-speech string
(alphabetic runs joined with `|`), dropping the period, so `n.` comes back
as `n`. -/
theorem c9_parts_of_speech_not_exact :
    load_log (logContent (save_parsed_content (["a"], [wrapSnippet "s"], ["n."]) 1 ",")) =
        [{ text := "a", snippet := "s", parts_of_speech := "n" }] ∧
      ("n" : String) ≠ "n." := by
  constructor
  · rfl
  · decide

/-- C9 (amended): appending a valid extraction triple and loading the log is
a round trip up to the documented normalizations — `text` is recovered
exactly, each snippet loses only its added outer quotes (its content already
quote-normalized), and parts-of-speech is recovered as the aggregator's
normalization (regex tokens rejoined with `|`) of the written string —
provided the words are pairwise distinct and no field contains the
delimiter, a double quote or a newline where the format forbids it
(snippet content may contain the delimiter, being quote-wrapped). -/
theorem c9_round_trip (ws rs qs : List String) (page : Nat)
    (hlen1 : ws.length = rs.length) (hlen2 : ws.length = qs.length)
    (hnodup : ws.Nodup)
    (hw : ∀ w ∈ ws, ∀ c ∈ w.data, c ≠ ',' ∧ c ≠ '"' ∧ c ≠ '\n')
    (hr : ∀ r ∈ rs, ∀ c ∈ r.data, c ≠ '"' ∧ c ≠ '\n')
    (hq : ∀ q ∈ qs, ∀ c ∈ q.data, c ≠ ',' ∧ c ≠ '"' ∧ c ≠ '\n') :
    load_log (logContent (save_parsed_content (ws, rs.map wrapSnippet, qs) page ",")) =
      roundTripWords ws rs qs := by
  rw [load_log, read_rows_save ws rs qs page hlen1 hlen2 hw hr hq, populate_words]
  exact populate_logRows ws rs qs (natDecimal page) [] hlen1 hlen2 hnodup
    (by intro w0 h0; cases h0)

/-- Witness for C9 (amended) at a one-word page whose snippet contains the
delimiter: `(run, "a, b", verb)` round-trips to the record
`⟨run, a, b, verb⟩`. -/
theorem c9_round_trip_witness :
    (["run"] : List String).length = (["a, b"] : List String).length ∧
      (["run"] : List String).length = (["verb"] : List String).length ∧
      (["run"] : List String).Nodup ∧
      load_log (logContent
          (save_parsed_content (["run"], ["a, b"].map wrapSnippet, ["verb"]) 12 ",")) =
        roundTripWords ["run"] ["a, b"] ["verb"] ∧
      roundTripWords ["run"] ["a, b"] ["verb"] =
        [{ text := "run", snippet := "a, b", parts_of_speech := "verb" }] := by
  refine ⟨rfl, rfl, by decide, ?_, by decide⟩
  exact c9_round_trip ["run"] ["a, b"] ["verb"] 12 rfl rfl (by decide)
    (by decide) (by decide) (by decide)

end OED
